import Mathlib

/-!  Verification of the survey extraction and normalization core of the
ReportAnalytics repository.

The development shallowly embeds the two core modules:

* `src/backend/raw_data_processor.py` — `process_exit_survey`, the raw-table
  normalizer (column pruning, row filtering, per-column-class imputation);
* `src/backend/data_extractors.py` — the `ExitEmbaExtractor` methods
  (NPS, CSI, PILO histograms, ranked lecturer selections, distributions).

Tables are modelled column-major: a `Table` is a list of named columns whose
cells are missing (`na`), numeric, or string values, mirroring a pandas
DataFrame.  Python `float`/pandas numeric values are modelled as rationals;
`int()` is truncation toward zero.  Fallible pandas operations (missing
labels, `int(nan)`, indexing an empty list) are modelled in `Except`.
-/

namespace ReportAnalytics

section Core

/- Core `Rat` arithmetic is `@[irreducible]` by default, which blocks `decide`
on concrete rational computations; re-allow unfolding locally. -/
attribute [local semireducible] Rat.add Rat.mul Rat.inv Rat.sub

/-- Python `int(x)` applied to a float: truncation toward zero. -/
def pyInt (q : ℚ) : ℤ := q.num.tdiv q.den

/-- Python `str.startswith(p)`, used for all question-id column selection. -/
def pyStartswith (s p : String) : Bool := p.data.isPrefixOf s.data

/-- Insert into a sorted list, before the first element not below `a`
(stable insertion step). -/
def insertSorted (le : α → α → Bool) (a : α) : List α → List α
  | [] => [a]
  | b :: l => if le a b then a :: b :: l else b :: insertSorted le a l

/-- Stable insertion sort; models `pandas.Series.sort_values` (pandas leaves
tie order unspecified, so any comparison sort is a faithful model). -/
def sortBy (le : α → α → Bool) : List α → List α
  | [] => []
  | a :: l => insertSorted le a (sortBy le l)

/-- Arithmetic mean, as `pandas.Series.mean` computes it on the non-missing
values it is given. -/
def mean (l : List ℚ) : ℚ := l.sum / (l.length : ℚ)

/-- Median as `pandas.Series.median` computes it on the non-missing values:
middle element of the sorted list, or the average of the two middle
elements for an even count. -/
def median (l : List ℚ) : ℚ :=
  let s := sortBy (fun a b => decide (a ≤ b)) l
  if s.length % 2 = 1 then s.getD (s.length / 2) 0
  else (s.getD (s.length / 2 - 1) 0 + s.getD (s.length / 2) 0) / 2

/-- One cell of a DataFrame: missing (NaN), numeric, or string. -/
inductive Cell where
  | na : Cell
  | num (q : ℚ) : Cell
  | str (s : String) : Cell
deriving DecidableEq

/-- Whether a cell is missing (pandas `isna`). -/
def Cell.isNa : Cell → Bool
  | .na => true
  | _ => false

/-- One DataFrame column: its header name, its pandas dtype flag for the
`dtype == "int64"` tests in the extractors, and its cells. -/
structure Col where
  name : String
  int64 : Bool
  cells : List Cell
deriving DecidableEq

/-- A DataFrame, column-major. -/
abbrev Table := List Col

/-- The column with the same header and dtype but new cells (row selection
or imputation applied to one column). -/
def Col.withCells (col : Col) (cs : List Cell) : Col := { col with cells := cs }

/-- The numeric values of a column, skipping missing cells — the values
pandas reductions (`mean`, `median`, `sum`) operate on. -/
def numsOf (cells : List Cell) : List ℚ :=
  cells.filterMap (fun c => match c with | .num q => some q | _ => none)

/-- The Python exceptions the embedded code can raise. -/
inductive PyError where
  | keyError : PyError
  | valueError : PyError
  | indexError : PyError
deriving DecidableEq

instance {ε α : Type} [DecidableEq ε] [DecidableEq α] : DecidableEq (Except ε α) :=
  fun a b =>
    match a, b with
    | .ok x, .ok y =>
        if h : x = y then isTrue (by rw [h])
        else isFalse (by intro hh; injection hh; contradiction)
    | .error x, .error y =>
        if h : x = y then isTrue (by rw [h])
        else isFalse (by intro hh; injection hh; contradiction)
    | .ok _, .error _ => isFalse (fun hh => Except.noConfusion hh)
    | .error _, .ok _ => isFalse (fun hh => Except.noConfusion hh)

/-! ## NPS  (`ExitEmbaExtractor._get_program_nps`, data_extractors.py:150-156)

The method reads one fixed recommendation column and the row count; it is
embedded as a function of that column's scores, with
`num_students = scores.length`. -/

/-- `self.df[self.df[nps_colname] >= 9].shape[0]` — rows scoring at least 9. -/
def num_promoters (scores : List ℚ) : ℕ :=
  (scores.filter (fun s => decide (9 ≤ s))).length

/-- `self.df[self.df[nps_colname] <= 6].shape[0]` — rows scoring at most 6. -/
def num_critics (scores : List ℚ) : ℕ :=
  (scores.filter (fun s => decide (s ≤ 6))).length

/-- `int((num_promoters - num_critics) / num_students * 100)`. -/
def get_program_nps (scores : List ℚ) : ℤ :=
  pyInt (((num_promoters scores : ℚ) - (num_critics scores : ℚ))
    / (scores.length : ℚ) * 100)

/-- The NPS formula as the spec words it: promoters are scores ≥ 9,
detractors scores ≤ 6, and the result is *round-to-int* of
`100 × (promoters − detractors) / total`. -/
def nps_spec_round (scores : List ℚ) : ℤ :=
  round ((100 : ℚ) * (((scores.countP (fun s => decide (9 ≤ s)) : ℚ)
    - (scores.countP (fun s => decide (s ≤ 6)) : ℚ)) / (scores.length : ℚ)))

/-- The NPS formula amended to what the code computes: the same
classification, but the quotient is *truncated toward zero* (Python `int()`),
not rounded. -/
def nps_spec_trunc (scores : List ℚ) : ℤ :=
  pyInt ((100 : ℚ) * (((scores.countP (fun s => decide (9 ≤ s)) : ℚ)
    - (scores.countP (fun s => decide (s ≤ 6)) : ℚ)) / (scores.length : ℚ)))

/-! ## CSI  (`ExitEmbaExtractor.calulate_csi`, data_extractors.py:92-96) -/

/-- `calulate_csi` (sic): the mean of the per-block means of its input
mapping. -/
def calulate_csi (csi_data : List (String × List ℚ)) : ℚ :=
  let component_csis := csi_data.map (fun kv => kv.2.sum / (kv.2.length : ℚ))
  component_csis.sum / (component_csis.length : ℚ)

/-- The spec's wording: the two-level (nested) mean of the per-block means. -/
def two_level_mean (d : List (String × List ℚ)) : ℚ :=
  mean (d.map (fun b => mean b.2))

/-- A flat mean over all raw data points, which the spec insists the
composite index is *not*. -/
def flat_mean (d : List (String × List ℚ)) : ℚ :=
  mean (d.map (fun b => b.2)).flatten

/-- The claim's fixing example: block A with ten values 10, block B with ten
values 0. -/
def csi_example_equal : List (String × List ℚ) :=
  [("A", List.replicate 10 10), ("B", List.replicate 10 0)]

/-- Blocks with unequal item counts, on which the two-level mean (5) differs
from the flat mean (1). -/
def csi_example_unequal : List (String × List ℚ) :=
  [("A", [10]), ("B", List.replicate 9 0)]

/-! ## Ranked lecturer selections
(`ExitEmbaExtractor.get_top_lectors`, data_extractors.py:212-224) -/

/-- `self.df.shape[0]`: the row count of a (rectangular) table. -/
def nRows (t : Table) : ℕ :=
  match t with
  | [] => 0
  | c :: _ => c.cells.length

/-- Row-major view of a column selection (`df[cols].values`): row `i` holds
cell `i` of each selected column, in column order. -/
def rowsOf (cols : List Col) (n : ℕ) : List (List Cell) :=
  (List.range n).map (fun i => cols.map (fun c => c.cells.getD i .na))

/-- Pandas `x == 0` on a cell: true only for the number 0 (NaN and strings
compare unequal to 0). -/
def isZeroCell (c : Cell) : Bool := c == .num 0

/-- `[col for col in self.df.columns if col.startswith("Q6")]`. -/
def lectorsCols (t : Table) : List Col :=
  t.filter (fun c => pyStartswith c.name "Q6")

/-- `zeros_count = ((all_lectors == 0).all(axis=1)).sum()`: the number of
rows whose lecturer-choice cells are all zero. -/
def zeros_count (t : Table) : ℕ :=
  (rowsOf (lectorsCols t) (nRows t)).countP (fun r => r.all isZeroCell)

/-- `all_lectors.loc[~mask_all_zeros].values.flatten()` filtered of zeros:
the nonzero selections of the not-all-zero rows, flattened row-major. -/
def lectors (t : Table) : List Cell :=
  (((rowsOf (lectorsCols t) (nRows t)).filter
    (fun r => !r.all isZeroCell)).flatten).filter (fun c => !isZeroCell c)

/-- `pandas.Series.value_counts`: occurrence count per distinct value,
sorted descending by count (pandas does not fix tie order; this model uses a
stable sort). -/
def valueCounts {α : Type} [DecidableEq α] (l : List α) : List (α × ℕ) :=
  sortBy (fun p q => decide (q.2 ≤ p.2)) (l.dedup.map (fun v => (v, l.count v)))

/-- `series[key] = value` on a pandas Series: overwrite in place when the key
exists, else append at the end. -/
def setKey {α : Type} [DecidableEq α] (l : List (α × ℕ)) (k : α) (v : ℕ) :
    List (α × ℕ) :=
  if l.any (fun p => p.1 == k) then l.map (fun p => if p.1 == k then (k, v) else p)
  else l ++ [(k, v)]

/-- `get_top_lectors`: value-count the flattened nonzero selections, set the
"Никто" entry to the all-zero-row count, sort ascending by count. -/
def get_top_lectors (t : Table) : List (Cell × ℕ) :=
  sortBy (fun p q => decide (p.2 ≤ q.2))
    (setKey (valueCounts (lectors t)) (.str "Никто") (zeros_count t))

/-! ## PILO rating histogram
(`ExitEmbaExtractor.get_pilos`, data_extractors.py:186-210) -/

/-- The ten fixed dimension labels assigned to the `Q3` columns. -/
def pilos_new_colnames : List String :=
  [ "Экспертный<br>уровень знания<br>бизнес-дисциплин",
    "Анализ данных<br>для принятия<br>решений",
    "Определение<br>стратегии для<br>устойчивого<br>развития",
    "Интеграционное<br>лидерство",
    "Эффективная<br>коммуникация",
    "Структурирование<br>стратегий",
    "Оценка контекста<br>и технологий",
    "Внедрение<br>ERS",
    "Креативность<br>новаторство",
    "Предпринимательское<br>мышление" ]

/-- An effectful map over a list in `Except`, stopping at the first error. -/
def mapExcept (f : α → Except ε β) : List α → Except ε (List β)
  | [] => .ok []
  | a :: l => do
      let b ← f a
      let r ← mapExcept f l
      return b :: r

/-- `astype(int)` on one cell: a numeric value is truncated toward zero; a
missing value raises (pandas cannot convert NaN to integer).  The canonical
rating columns are numeric, so string cells are likewise modelled as a
conversion error. -/
def cellToInt : Cell → Except PyError ℤ
  | .num q => .ok (pyInt q)
  | _ => .error .valueError

/-- `q3_cols = [col for col in self.df.columns if col.startswith("Q3")]`. -/
def q3Cols (t : Table) : List Col :=
  t.filter (fun c => pyStartswith c.name "Q3")

/-- Counts of each rating value 1..10 in a dimension's scores: the
melt → groupby size → unstack(fill_value=0) → reindex(columns=1..10,
fill_value=0) pipeline, which zero-fills unused rating values and keeps
exactly the ten columns 1..10. -/
def histCounts (scores : List ℤ) : List ℕ :=
  (List.range 10).map (fun (i : ℕ) => scores.countP (fun s => s == (i : ℤ) + 1))

/-- `get_pilos`: select the `Q3` columns, rename them to the ten fixed
labels (pandas raises unless the counts match), convert to int, and build
the per-dimension rating histogram.  (Pandas orders the result rows by
groupby key; row order is not claimed, so the model keeps column order.) -/
def get_pilos (t : Table) : Except PyError (List (String × List ℕ)) :=
  if (q3Cols t).length ≠ pilos_new_colnames.length then .error .valueError
  else do
    let scoresPerDim ← mapExcept (fun (c : Col) => mapExcept cellToInt c.cells)
      (q3Cols t)
    return pilos_new_colnames.zip (scoresPerDim.map histCounts)

/-! ## Job-function and industry distributions
(`ExitEmbaExtractor.get_job_distr`, data_extractors.py:58-67 and
`ExitEmbaExtractor.get_industry_distr`, data_extractors.py:26-56) -/

/-- The fixed industry code table. -/
def industry_codes : List (ℚ × String) :=
  [ (1, "Средства массовой информации и развлечения"),
    (2, "Здравоохранение"),
    (3, "Образование"),
    (4, "Некоммерческие организации, неправительственные организации"),
    (5, "Государственный сектор"),
    (6, "Консалтинг"),
    (7, "Недвижимость"),
    (8, "Финансы"),
    (9, "Технологии"),
    (10, "Отели, Рестораны, Кейтеринг"),
    (11, "Логистика"),
    (12, "Товары народного потребления"),
    (13, "Торговля"),
    (14, "Строительство"),
    (15, "Энергетика"),
    (16, "Производство"),
    (17, "Добыча полезных ископаемых"),
    (18, "Сельское хозяйство"),
    (19, "Другое") ]

/-- `get_job_distr`: sum each `Q13` int64 column, keep positive sums, sort
descending.  A zero-column selection silently yields the empty dict. -/
def get_job_distr (t : Table) : List (String × ℚ) :=
  let job_cols := t.filter (fun c => pyStartswith c.name "Q13" && c.int64)
  sortBy (fun p q => decide (q.2 ≤ p.2))
    ((job_cols.map (fun c => (c.name, (numsOf c.cells).sum))).filter
      (fun p => decide (0 < p.2)))

/-- `get_industry_distr`: `[... if col.startswith("Q14") and int64][0]` —
indexing an empty selection raises IndexError; otherwise value-count the
first matching column and map codes to labels (`none` models the NaN index
pandas produces for an unlisted code). -/
def get_industry_distr (t : Table) : Except PyError (List (Option String × ℕ)) :=
  match t.filter (fun c => pyStartswith c.name "Q14" && c.int64) with
  | [] => .error .indexError
  | c :: _ =>
      .ok ((valueCounts (numsOf c.cells)).map
        (fun p => (industry_codes.lookup p.1, p.2)))

/-! ## Raw-table normalizer
(`process_exit_survey`, raw_data_processor.py:9-56)

The string literals below are copied byte-for-byte from the source file
(whose Russian text is stored in a double-encoded form).  The pipeline is
split into one definition per source step; `process_exit_survey` chains
them.  The final Excel round-trip (lines 53-56) is pure serialization and is
modelled as the identity on the table. -/

/-- `name_col` (raw_data_processor.py:18), the respondent-identifier
column. -/
def nameCol : String := "Q16  - üî¥ –£–∫–∞–∂–∏—Ç–µ  —Ñ–∞–º–∏–ª–∏—é –∏ –∏–º—è"

/-- `age_col` (raw_data_processor.py:26). -/
def ageCol : String := "Q15 üî¥  –£–∫–∞–∂–∏—Ç–µ –≤–∞—à  –≤–æ–∑—Ä–∞—Å—Ç"

/-- The lecturer-question "none" sentinel (raw_data_processor.py:23). -/
def noneSentinel : String := "–ù–∏–∫—Ç–æ"

/-- The free-answer columns of raw_data_processor.py:38-47 (the `Q10` label
occurs twice there, and the model keeps the duplicate). -/
def faStrengths : String :=
  "Q4.1 –ö–∞–∫–æ–≤—ã, –Ω–∞ –≤–∞—à –≤–∑–≥–ª—è–¥,  —Å–∏–ª—å–Ω—ã–µ –∏ —Å–ª–∞–±—ã–µ —Å—Ç–æ—Ä–æ–Ω—ã –ø—Ä–æ–≥—Ä–∞–º–º—ã? - –°–∏–ª—å–Ω—ã–µ —Å—Ç–æ—Ä–æ–Ω—ã"

/-- Second free-answer column (raw_data_processor.py:40). -/
def faWeaknesses : String :=
  "Q4.2 –ö–∞–∫–æ–≤—ã, –Ω–∞ –≤–∞—à –≤–∑–≥–ª—è–¥,  —Å–∏–ª—å–Ω—ã–µ –∏ —Å–ª–∞–±—ã–µ —Å—Ç–æ—Ä–æ–Ω—ã –ø—Ä–æ–≥—Ä–∞–º–º—ã? - –°–ª–∞–±—ã–µ —Å—Ç–æ—Ä–æ–Ω—ã"

/-- Third free-answer column (raw_data_processor.py:41-42, listed twice). -/
def faWishes : String :=
  "Q10 –û—Å—Ç–∞–≤—å—Ç–µ –≤–∞—à–∏  –ø–æ–∂–µ–ª–∞–Ω–∏—è –∏ –¥–æ–ø–æ–ª–Ω–∏—Ç–µ–ª—å–Ω—ã–µ –∫–æ–º–º–µ–Ω—Ç–∞—Ä–∏–∏  –ø–æ –ø—Ä–æ–≥—Ä–∞–º–º–µ"

/-- Fourth free-answer column (raw_data_processor.py:43). -/
def faSpeaker : String :=
  "Q11.1.O –í –∫–∞—á–µ—Å—Ç–≤–µ –ø—Ä–∏–≥–ª–∞—à–µ–Ω–Ω–æ–≥–æ —Å–ø–∏–∫–µ—Ä–∞ - –±—Ä–µ–Ω–¥–∏–Ω–≥, –∫–æ—Ä–ø—Ñ–∏–Ω"

/-- Fifth free-answer column (raw_data_processor.py:44). -/
def faProtagonist : String := "Q11.5.O –î—Ä—É–≥–æ–µ - –ø—Ä–æ—Ç–∞–≥–æ–Ω–∏—Å—Ç –∫–µ–π—Å–∞"

/-- Sixth free-answer column (raw_data_processor.py:45). -/
def faJobOther : String := "Q13.6.O –î—Ä—É–≥–æ–µ - Other"

/-- Seventh free-answer column (raw_data_processor.py:46). -/
def faIndustryOther : String := "Q14.20.O –î—Ä—É–≥–æ–µ - Other"

/-- `free_answer_cols` (raw_data_processor.py:38-47). -/
def free_answer_cols : List String :=
  [faStrengths, faWeaknesses, faWishes, faWishes, faSpeaker, faProtagonist,
   faJobOther, faIndustryOther]

/-- Service columns: `col.startswith("S")` (raw_data_processor.py:12). -/
def isServiceName (s : String) : Bool := pyStartswith s "S"

/-- Auto-generated columns: `col.startswith("Unnamed:")`
(raw_data_processor.py:13). -/
def isUnnamedName (s : String) : Bool := pyStartswith s "Unnamed:"

/-- Rating-question columns: `Q7`/`Q8`/`Q9` prefix
(raw_data_processor.py:29-33). -/
def isScoreName (s : String) : Bool :=
  pyStartswith s "Q7" || pyStartswith s "Q8" || pyStartswith s "Q9"

/-- `cols_to_drop` (raw_data_processor.py:14). -/
def colsToDrop (raw : Table) : List String :=
  ["PS0 Start", "PD0 Duration , sec"]
    ++ (raw.map Col.name).filter isServiceName
    ++ (raw.map Col.name).filter isUnnamedName

/-- `raw_data.drop(columns=cols_to_drop)` (raw_data_processor.py:15):
pandas raises KeyError when any listed label is absent, else removes every
column with a listed name. -/
def dropCols (raw : Table) : Except PyError Table :=
  if (colsToDrop raw).all (fun l => raw.any (fun c => c.name == l)) then
    .ok (raw.filter (fun c => !((colsToDrop raw).contains c.name)))
  else .error .keyError

/-- Keep the cells whose mask entry is true (row selection applied to one
column). -/
def applyMask (mask : List Bool) (cells : List Cell) : List Cell :=
  ((mask.zip cells).filter (fun p => p.1)).map (fun p => p.2)

/-- Replace missing cells by `v` (`fillna`). -/
def fillna (v : Cell) (cells : List Cell) : List Cell :=
  cells.map (fun c => match c with | .na => v | c => c)

/-- `raw_data.dropna(subset=[name_col], ignore_index=True)`
(raw_data_processor.py:20): KeyError when the identifier column is absent,
else drop every row whose identifier cell is missing. -/
def dropnaByName (t : Table) : Except PyError Table :=
  match t.find? (fun c => c.name == nameCol) with
  | none => .error .keyError
  | some nc =>
      .ok (t.map (fun col =>
        col.withCells (applyMask (nc.cells.map (fun x => !x.isNa)) col.cells)))

/-- Fill the missing cells of every column whose name satisfies `p`
(used for the `Q6` lecturer columns, raw_data_processor.py:23). -/
def fillnaIf (p : String → Bool) (v : Cell) (t : Table) : Table :=
  t.map (fun col =>
    if p col.name then col.withCells (fillna v col.cells) else col)

/-- `raw_data[age_col] = raw_data[age_col].fillna(raw_data[age_col].median())`
(raw_data_processor.py:26-27): KeyError when the age column is absent; when
the column has no numeric values its median is NaN and `fillna` is a no-op. -/
def fillAge (t : Table) : Except PyError Table :=
  match t.find? (fun c => c.name == ageCol) with
  | none => .error .keyError
  | some _ =>
      .ok (t.map (fun col =>
        if col.name == ageCol then
          col.withCells (if (numsOf col.cells).isEmpty then col.cells
            else fillna (.num (median (numsOf col.cells))) col.cells)
        else col))

/-- `raw_data[col] = raw_data[col].fillna(int(raw_data[col].mean()))` for the
`Q7`/`Q8`/`Q9` columns (raw_data_processor.py:29-36): when a rating column
has no numeric values its mean is NaN and `int(nan)` raises ValueError. -/
def fillScores (t : Table) : Except PyError Table :=
  if t.any (fun col => isScoreName col.name && (numsOf col.cells).isEmpty) then
    .error .valueError
  else
    .ok (t.map (fun col =>
      if isScoreName col.name then
        col.withCells (fillna (.num ((pyInt (mean (numsOf col.cells)) : ℤ) : ℚ))
          col.cells)
      else col))

/-- `raw_data[col] = raw_data[col].fillna("No comments")` for each listed
free-answer column (raw_data_processor.py:49-50): KeyError when one is
absent. -/
def fillFreeAnswers (t : Table) : Except PyError Table :=
  if free_answer_cols.all (fun l => t.any (fun c => c.name == l)) then
    .ok (t.map (fun col =>
      if free_answer_cols.contains col.name then
        col.withCells (fillna (.str "No comments") col.cells)
      else col))
  else .error .keyError

/-- `process_exit_survey` (raw_data_processor.py:9-56), as the table-level
transformation: prune columns, drop rows with a missing identifier, impute
per column class, and return the table (the Excel round-trip of lines 53-56
is the identity on the table's contents). -/
def process_exit_survey (raw : Table) : Except PyError Table := do
  let t1 ← dropCols raw
  let t2 ← dropnaByName t1
  let t4 ← fillAge (fillnaIf (fun n => pyStartswith n "Q6") (.str noneSentinel) t2)
  let t5 ← fillScores t4
  fillFreeAnswers t5

/-! ## Predicates and concrete tables used in the claims -/

/-- A numeric cell whose `astype(int)` value lies in 1..10 (the premise of
the histogram invariant: all rating values lie in 1..10). -/
def cellInRange (x : Cell) : Bool :=
  match x with
  | .num q => decide (1 ≤ pyInt q) && decide (pyInt q ≤ 10)
  | _ => false

/-- The column classes whose missing values `process_exit_survey` covers
(identifier, lecturer choice, age, rating questions, free answers). -/
def coveredName (n : String) : Bool :=
  (n == nameCol) || pyStartswith n "Q6" || (n == ageCol) || isScoreName n
    || free_answer_cols.contains n

/-- An already-normalized table that still carries the two named metadata
columns: both metadata columns present, no service/unnamed columns, the
identifier, age and free-answer columns present, no missing values in any
covered column, every rating column with at least one numeric value, and
rectangular shape. -/
def normalizedWithMeta (t : Table) : Bool :=
  (t.any (fun c => c.name == "PS0 Start")) &&
  (t.any (fun c => c.name == "PD0 Duration , sec")) &&
  (t.all (fun c => !(isServiceName c.name) && !(isUnnamedName c.name))) &&
  (t.any (fun c => c.name == nameCol)) &&
  (t.any (fun c => c.name == ageCol)) &&
  (free_answer_cols.all (fun l => t.any (fun c => c.name == l))) &&
  (t.all (fun c => !(coveredName c.name) || c.cells.all (fun x => !x.isNa))) &&
  (t.all (fun c => !(isScoreName c.name) || !(numsOf c.cells).isEmpty)) &&
  (t.all (fun c => t.all (fun d => c.cells.length == d.cells.length)))

/-- The five-respondent raw table of the end-to-end imputation scenario: one
missing age, one missing lecturer choice, one missing rating value in a
covered (`Q7`) column, one blank covered free-text field. -/
def ex_raw : Table :=
  [ ⟨"PS0 Start", false, List.replicate 5 (.num 0)⟩,
    ⟨"PD0 Duration , sec", false, List.replicate 5 (.num 60)⟩,
    ⟨nameCol, false,
      [.str "Иванов", .str "Петров", .str "Сидоров", .str "Кузнецов", .str "Смирнов"]⟩,
    ⟨"Q6 Выберите лекторов", false,
      [.str "Андреев", .na, .str "Борисов", .str "Андреев", .str "Власов"]⟩,
    ⟨ageCol, false, [.num 30, .num 40, .na, .num 36, .num 50]⟩,
    ⟨"Q7.1 Оцените качество кейсов", false, [.num 9, .num 8, .num 7, .na, .num 9]⟩,
    ⟨faStrengths, false,
      [.str "кейсы", .str "практика", .na, .str "нетворкинг", .str "спикеры"]⟩,
    ⟨faWeaknesses, false, List.replicate 5 (.str "-")⟩,
    ⟨faWishes, false, List.replicate 5 (.str "-")⟩,
    ⟨faSpeaker, false, List.replicate 5 (.str "-")⟩,
    ⟨faProtagonist, false, List.replicate 5 (.str "-")⟩,
    ⟨faJobOther, false, List.replicate 5 (.str "-")⟩,
    ⟨faIndustryOther, false, List.replicate 5 (.str "-")⟩ ]

/-- The expected normalization of `ex_raw`: metadata columns dropped, the
age gap filled with the median 38 of the four present ages, the lecturer gap
with the "none" sentinel, the rating gap with the truncated mean
`int(33/4) = 8`, and the blank free-text field with "No comments". -/
def ex_raw_normalized : Table :=
  [ ⟨nameCol, false,
      [.str "Иванов", .str "Петров", .str "Сидоров", .str "Кузнецов", .str "Смирнов"]⟩,
    ⟨"Q6 Выберите лекторов", false,
      [.str "Андреев", .str noneSentinel, .str "Борисов", .str "Андреев", .str "Власов"]⟩,
    ⟨ageCol, false, [.num 30, .num 40, .num 38, .num 36, .num 50]⟩,
    ⟨"Q7.1 Оцените качество кейсов", false, [.num 9, .num 8, .num 7, .num 8, .num 9]⟩,
    ⟨faStrengths, false,
      [.str "кейсы", .str "практика", .str "No comments", .str "нетворкинг", .str "спикеры"]⟩,
    ⟨faWeaknesses, false, List.replicate 5 (.str "-")⟩,
    ⟨faWishes, false, List.replicate 5 (.str "-")⟩,
    ⟨faSpeaker, false, List.replicate 5 (.str "-")⟩,
    ⟨faProtagonist, false, List.replicate 5 (.str "-")⟩,
    ⟨faJobOther, false, List.replicate 5 (.str "-")⟩,
    ⟨faIndustryOther, false, List.replicate 5 (.str "-")⟩ ]

/-- A complete raw table that simply has no rating-question (`Q7`/`Q8`/`Q9`)
column at all. -/
def ex_missing_rating : Table :=
  [ ⟨"PS0 Start", false, [.num 0]⟩,
    ⟨"PD0 Duration , sec", false, [.num 60]⟩,
    ⟨nameCol, false, [.str "Иванов"]⟩,
    ⟨ageCol, false, [.num 35]⟩,
    ⟨faStrengths, false, [.str "x"]⟩,
    ⟨faWeaknesses, false, [.str "x"]⟩,
    ⟨faWishes, false, [.str "x"]⟩,
    ⟨faSpeaker, false, [.str "x"]⟩,
    ⟨faProtagonist, false, [.str "x"]⟩,
    ⟨faJobOther, false, [.str "x"]⟩,
    ⟨faIndustryOther, false, [.str "x"]⟩ ]

/-- A raw table whose identifier cells are all missing, with the schema
columns present and one rating column: zero rows survive the filter. -/
def ex_all_rows_invalid : Table :=
  [ ⟨"PS0 Start", false, [.num 0]⟩,
    ⟨"PD0 Duration , sec", false, [.num 60]⟩,
    ⟨nameCol, false, [.na]⟩,
    ⟨ageCol, false, [.num 35]⟩,
    ⟨"Q7.1 Оцените качество кейсов", false, [.num 9]⟩ ]

/-- An already-normalized table (in particular, the two metadata columns are
gone, as normalization removes them). -/
def ex_normalized : Table :=
  [ ⟨nameCol, false, [.str "Иванов"]⟩,
    ⟨ageCol, false, [.num 35]⟩,
    ⟨faStrengths, false, [.str "x"]⟩,
    ⟨faWeaknesses, false, [.str "x"]⟩,
    ⟨faWishes, false, [.str "x"]⟩,
    ⟨faSpeaker, false, [.str "x"]⟩,
    ⟨faProtagonist, false, [.str "x"]⟩,
    ⟨faJobOther, false, [.str "x"]⟩,
    ⟨faIndustryOther, false, [.str "x"]⟩ ]

/-- An otherwise-normalized table that still carries the two metadata
columns. -/
def ex_with_meta : Table :=
  [ ⟨"PS0 Start", false, [.num 0]⟩,
    ⟨"PD0 Duration , sec", false, [.num 60]⟩,
    ⟨nameCol, false, [.str "Иванов"]⟩,
    ⟨"Q6 Выберите лекторов", false, [.str "Петров"]⟩,
    ⟨ageCol, false, [.num 35]⟩,
    ⟨"Q7.1 Оцените качество кейсов", false, [.num 9]⟩,
    ⟨faStrengths, false, [.str "x"]⟩,
    ⟨faWeaknesses, false, [.str "x"]⟩,
    ⟨faWishes, false, [.str "x"]⟩,
    ⟨faSpeaker, false, [.str "x"]⟩,
    ⟨faProtagonist, false, [.str "x"]⟩,
    ⟨faJobOther, false, [.str "x"]⟩,
    ⟨faIndustryOther, false, [.str "x"]⟩ ]

/-- A lecturer table in which the literal value "Никто" occurs as a
selection (one row), next to two all-zero rows. -/
def lectors_cx_table : Table :=
  [ ⟨"Q6 Выберите лекторов", false, [.str "Никто", .num 0, .num 0]⟩ ]

/-- A lecturer table with two choice columns, one all-zero row, and repeated
selections of the same lecturer. -/
def lectors_example : Table :=
  [ ⟨"Q6 Выберите лекторов - 1", false, [.str "Иванов", .num 0, .str "Петров"]⟩,
    ⟨"Q6 Выберите лекторов - 2", false, [.str "Петров", .num 0, .num 0]⟩ ]

/-- Ten `Q3` rating columns, one respondent each scoring 1. -/
def pilos_example : Table :=
  pilos_new_colnames.map (fun n => ⟨"Q3 " ++ n, false, [Cell.num 1]⟩)

/-- The rating histogram of `pilos_example`: each dimension counts one score
of 1 and zero of every other rating value. -/
def pilos_example_out : List (String × List ℕ) :=
  pilos_new_colnames.zip (List.replicate 10 [1, 0, 0, 0, 0, 0, 0, 0, 0, 0])

/-- A table with no `Q13` (job-function) and no `Q14` (industry) column. -/
def ex_no_q13_q14 : Table :=
  [ ⟨"Q1 Общая оценка", true, [.num 9, .num 8]⟩ ]

/-! ## Helper lemmas -/

/-- Truncation toward zero agrees with the floor on nonnegative rationals. -/
theorem pyInt_eq_floor {q : ℚ} (h : 0 ≤ q) : pyInt q = ⌊q⌋ := by
  rw [pyInt, Int.tdiv_eq_ediv (Rat.num_nonneg.mpr h) (Int.natCast_nonneg _),
    Rat.floor_def]

/-- Truncation toward zero agrees with the ceiling on negative rationals. -/
theorem pyInt_eq_ceil {q : ℚ} (h : q < 0) : pyInt q = ⌈q⌉ := by
  have h2 : pyInt (-q) = ⌊-q⌋ := pyInt_eq_floor (by linarith)
  have h3 : pyInt (-q) = -(pyInt q) := by
    rw [pyInt, pyInt, Rat.neg_num, Rat.neg_den, Int.neg_tdiv]
  have h4 : ⌈-(-q)⌉ = -⌊-q⌋ := @Int.ceil_neg ℚ _ _ (-q)
  rw [neg_neg] at h4
  omega

/-! ## C1 — NPS formula -/

/-- C1 is false as stated: at the three-respondent score list `[9, 9, 7]`
the code returns `int(200/3) = 66`, while the claimed round-to-int formula
gives `round(200/3) = 67`. -/
theorem nps_rounds_cx :
    get_program_nps [9, 9, 7] ≠ nps_spec_round [9, 9, 7] ∧
    get_program_nps [9, 9, 7] = 66 ∧ nps_spec_round [9, 9, 7] = 67 := by
  have h2 : nps_spec_round [9, 9, 7] = 67 := by
    have hp : ([9, 9, 7] : List ℚ).countP (fun s => decide (9 ≤ s)) = 2 := by decide
    have hc : ([9, 9, 7] : List ℚ).countP (fun s => decide (s ≤ 6)) = 0 := by decide
    unfold nps_spec_round
    rw [hp, hc]
    norm_num [round_eq]
  exact ⟨by rw [h2]; decide, by decide, h2⟩

/-- C1 (amended): for every non-empty respondent table the extractor
classifies promoters as scores ≥ 9 and detractors as scores ≤ 6 and returns
`NPS = trunc-toward-zero(100 × (promoters − detractors) / total)` — Python
`int()` truncation, not round-to-int. -/
theorem nps_eq_trunc_spec (scores : List ℚ) (h : scores ≠ []) :
    get_program_nps scores = nps_spec_trunc scores := by
  unfold get_program_nps nps_spec_trunc num_promoters num_critics
  rw [List.countP_eq_length_filter, List.countP_eq_length_filter]
  congr 1
  ring

/-- Witness for C1 (amended) at the concrete score list `[9, 9, 7]`. -/
theorem nps_eq_trunc_spec_witness :
    get_program_nps [9, 9, 7] = nps_spec_trunc [9, 9, 7] :=
  nps_eq_trunc_spec [9, 9, 7] (by decide)

/-! ## C2 — composite satisfaction index -/

/-- C2: `calulate_csi` computes the mean of the per-block means (the
unweighted two-level average); on ten 10s against ten 0s it returns exactly
5, and on blocks of unequal item counts it differs from the flat mean over
all raw data points (5 against 1). -/
theorem calulate_csi_two_level :
    (∀ d : List (String × List ℚ), calulate_csi d = two_level_mean d) ∧
    calulate_csi csi_example_equal = 5 ∧
    calulate_csi csi_example_unequal = 5 ∧
    flat_mean csi_example_unequal = 1 ∧
    calulate_csi csi_example_unequal ≠ flat_mean csi_example_unequal :=
  ⟨fun _ => rfl, by decide, by decide, by decide, by decide⟩

/-! ## C7 — end-to-end imputation -/

/-- C7: on the five-respondent raw table with one missing age, one missing
lecturer choice, one missing rating value and one blank free-text field,
normalization fills the age gap with the median 38 of the other four ages,
the lecturer gap with the "none" sentinel, the rating gap with the
column mean truncated to 8 (`int(33/4)`), and the free-text gap with
"No comments". -/
theorem process_end_to_end_imputation :
    process_exit_survey ex_raw = .ok ex_raw_normalized := by decide

/-! ## C8 — NPS bounds -/

/-- C8: for every non-empty respondent table the NPS lies in `[-100, 100]`;
it is 100 when every respondent scores ≥ 9 and −100 when every respondent
scores ≤ 6. -/
theorem nps_bounds (scores : List ℚ) (h : scores ≠ []) :
    (-100 ≤ get_program_nps scores ∧ get_program_nps scores ≤ 100) ∧
    ((∀ s ∈ scores, (9 : ℚ) ≤ s) → get_program_nps scores = 100) ∧
    ((∀ s ∈ scores, s ≤ (6 : ℚ)) → get_program_nps scores = -100) := by
  have hn0 : 0 < scores.length := List.length_pos.mpr h
  have hn : (0 : ℚ) < (scores.length : ℚ) := by exact_mod_cast hn0
  refine ⟨?_, ?_, ?_⟩
  · have hp : (num_promoters scores : ℚ) ≤ (scores.length : ℚ) := by
      exact_mod_cast List.length_filter_le _ scores
    have hc : (num_critics scores : ℚ) ≤ (scores.length : ℚ) := by
      exact_mod_cast List.length_filter_le _ scores
    have hp0 : (0 : ℚ) ≤ (num_promoters scores : ℚ) := Nat.cast_nonneg _
    have hc0 : (0 : ℚ) ≤ (num_critics scores : ℚ) := Nat.cast_nonneg _
    have hgp : get_program_nps scores =
        pyInt (((num_promoters scores : ℚ) - (num_critics scores : ℚ))
          / (scores.length : ℚ) * 100) := rfl
    have hub : ((num_promoters scores : ℚ) - (num_critics scores : ℚ))
        / (scores.length : ℚ) * 100 ≤ 100 := by
      have h1 : ((num_promoters scores : ℚ) - (num_critics scores : ℚ))
          / (scores.length : ℚ) ≤ 1 := (div_le_one hn).mpr (by linarith)
      nlinarith
    have hlb : (-100 : ℚ) ≤ ((num_promoters scores : ℚ) - (num_critics scores : ℚ))
        / (scores.length : ℚ) * 100 := by
      have h2 : (-1 : ℚ) ≤ ((num_promoters scores : ℚ) - (num_critics scores : ℚ))
          / (scores.length : ℚ) := by
        rw [le_div_iff₀ hn]
        linarith
      nlinarith
    rw [hgp]
    by_cases h0 : 0 ≤ ((num_promoters scores : ℚ) - (num_critics scores : ℚ))
        / (scores.length : ℚ) * 100
    · rw [pyInt_eq_floor h0]
      have hf0 : (0 : ℤ) ≤ ⌊((num_promoters scores : ℚ) - (num_critics scores : ℚ))
          / (scores.length : ℚ) * 100⌋ := Int.floor_nonneg.mpr h0
      have hfu : ⌊((num_promoters scores : ℚ) - (num_critics scores : ℚ))
          / (scores.length : ℚ) * 100⌋ ≤ ⌊(100 : ℚ)⌋ := Int.floor_le_floor hub
      have h100 : ⌊(100 : ℚ)⌋ = 100 := by norm_num
      omega
    · push_neg at h0
      rw [pyInt_eq_ceil h0]
      have hcl : ⌈(-100 : ℚ)⌉ ≤ ⌈((num_promoters scores : ℚ) - (num_critics scores : ℚ))
          / (scores.length : ℚ) * 100⌉ := Int.ceil_le_ceil hlb
      have hm : ⌈(-100 : ℚ)⌉ = -100 := by
        rw [Int.ceil_neg]
        norm_num
      have hcu : ⌈((num_promoters scores : ℚ) - (num_critics scores : ℚ))
          / (scores.length : ℚ) * 100⌉ ≤ 0 :=
        Int.ceil_le.mpr (by exact_mod_cast h0.le)
      omega
  · intro h9
    have hpn : num_promoters scores = scores.length := by
      unfold num_promoters
      rw [List.filter_eq_self.mpr (fun s hs => decide_eq_true (h9 s hs))]
    have hcn : num_critics scores = 0 := by
      have e : scores.filter (fun s => decide (s ≤ 6)) = [] := by
        rw [List.filter_eq_nil_iff]
        intro s hs
        have h9s := h9 s hs
        simp only [decide_eq_true_eq]
        intro hle
        linarith
      unfold num_critics
      rw [e]
      rfl
    unfold get_program_nps
    rw [hpn, hcn]
    have e2 : ((scores.length : ℚ) - ((0 : ℕ) : ℚ)) / (scores.length : ℚ) * 100
        = 100 := by
      rw [Nat.cast_zero, sub_zero, div_self (ne_of_gt hn), one_mul]
    rw [e2]
    decide
  · intro h6
    have hpn : num_promoters scores = 0 := by
      have e : scores.filter (fun s => decide (9 ≤ s)) = [] := by
        rw [List.filter_eq_nil_iff]
        intro s hs
        have h6s := h6 s hs
        simp only [decide_eq_true_eq]
        intro hge
        linarith
      unfold num_promoters
      rw [e]
      rfl
    have hcn : num_critics scores = scores.length := by
      unfold num_critics
      rw [List.filter_eq_self.mpr (fun s hs => decide_eq_true (h6 s hs))]
    unfold get_program_nps
    rw [hpn, hcn]
    have e2 : (((0 : ℕ) : ℚ) - (scores.length : ℚ)) / (scores.length : ℚ) * 100
        = -100 := by
      rw [Nat.cast_zero, zero_sub, neg_div, div_self (ne_of_gt hn)]
      norm_num
    rw [e2]
    decide

/-- Witness for C8 at the concrete score list `[10]`. -/
theorem nps_bounds_witness :
    ((-100 ≤ get_program_nps [10] ∧ get_program_nps [10] ≤ 100) ∧
    ((∀ s ∈ ([10] : List ℚ), (9 : ℚ) ≤ s) → get_program_nps [10] = 100) ∧
    ((∀ s ∈ ([10] : List ℚ), s ≤ (6 : ℚ)) → get_program_nps [10] = -100)) :=
  nps_bounds [10] (by decide)

/-! ## C4 — empty prefix match behavior of the extractors -/

/-- C4 is false as stated: on a non-empty table with no `Q13` job-function
column, `get_job_distr` does not fail at all — it silently returns the empty
mapping. -/
theorem get_job_distr_silent_empty_cx :
    get_job_distr ex_no_q13_q14 = [] ∧
    (∀ c ∈ ex_no_q13_q14, (pyStartswith c.name "Q13" && c.int64) = false) ∧
    ex_no_q13_q14 ≠ [] := by decide

/-- C4 (amended): when the required question-id prefix matches zero columns,
`get_industry_distr` fails — though with a bare list-index error, there
being no ColumnNotFoundError in the code — while `get_job_distr` does not
fail and silently returns the empty mapping. -/
theorem extractor_empty_prefix_behavior :
    (∀ t : Table, (∀ c ∈ t, (pyStartswith c.name "Q14" && c.int64) = false) →
      get_industry_distr t = .error .indexError) ∧
    (∀ t : Table, (∀ c ∈ t, (pyStartswith c.name "Q13" && c.int64) = false) →
      get_job_distr t = []) := by
  constructor
  · intro t ht
    have e : t.filter (fun c => pyStartswith c.name "Q14" && c.int64) = [] := by
      rw [List.filter_eq_nil_iff]
      intro c hc
      simp [ht c hc]
    unfold get_industry_distr
    rw [e]
  · intro t ht
    have e : t.filter (fun c => pyStartswith c.name "Q13" && c.int64) = [] := by
      rw [List.filter_eq_nil_iff]
      intro c hc
      simp [ht c hc]
    unfold get_job_distr
    rw [e]
    rfl

/-- Witness for C4 (amended) at a concrete table with neither prefix. -/
theorem extractor_empty_prefix_behavior_witness :
    get_industry_distr ex_no_q13_q14 = .error .indexError ∧
    get_job_distr ex_no_q13_q14 = [] :=
  ⟨extractor_empty_prefix_behavior.1 ex_no_q13_q14 (by decide),
   extractor_empty_prefix_behavior.2 ex_no_q13_q14 (by decide)⟩

/-! ## C6 — idempotence of normalization -/

/-- C6 is false as stated: `ex_normalized` has no missing values, no
service/unnamed columns and no metadata columns, yet normalization fails
with a missing-label error (the two metadata columns are dropped
unconditionally) instead of returning it unchanged. -/
theorem process_not_idempotent_cx :
    process_exit_survey ex_normalized = .error .keyError ∧
    (∀ c ∈ ex_normalized, isServiceName c.name = false ∧
      isUnnamedName c.name = false ∧
      c.name ≠ "PS0 Start" ∧ c.name ≠ "PD0 Duration , sec") ∧
    (∀ c ∈ ex_normalized, c.cells.all (fun x => !x.isNa) = true) := by decide

/-! ## C5 — failure conditions of normalization -/

/-- C5 is false as stated: rating-question columns are discovered by prefix,
so a raw table from which the rating-question columns are absent normalizes
successfully instead of failing with a schema error. -/
theorem process_missing_rating_ok_cx :
    (∀ c ∈ ex_missing_rating, isScoreName c.name = false) ∧
    (process_exit_survey ex_missing_rating).isOk = true := by decide

/-! ## Plumbing lemmas for the normalization pipeline -/

/-- Binding a successful `Except` computation. -/
theorem except_bind_ok (a : α) (f : α → Except ε β) :
    (Except.ok a >>= f) = f a := rfl

/-- Binding a failed `Except` computation. -/
theorem except_bind_error (e : ε) (f : α → Except ε β) :
    ((Except.error e : Except ε α) >>= f) = .error e := rfl

/-- The only error `dropCols` raises is `KeyError`. -/
theorem dropCols_error_keyError {raw : Table} {e : PyError}
    (h : dropCols raw = .error e) : e = .keyError := by
  unfold dropCols at h
  split at h
  · cases h
  · injection h with h
    exact h.symm

/-- A successful `dropCols` returns the table without the listed columns. -/
theorem dropCols_ok_eq {raw t₁ : Table} (h : dropCols raw = .ok t₁) :
    t₁ = raw.filter (fun c => !((colsToDrop raw).contains c.name)) := by
  unfold dropCols at h
  split at h
  · injection h with h
    exact h.symm
  · cases h

/-- `dropnaByName` fails with `KeyError` when the identifier column is not
found. -/
theorem dropnaByName_none {t : Table}
    (h : t.find? (fun c => c.name == nameCol) = none) :
    dropnaByName t = .error .keyError := by
  unfold dropnaByName
  rw [h]

/-- `dropnaByName` on a table whose identifier column is found. -/
theorem dropnaByName_some {t : Table} {nc : Col}
    (h : t.find? (fun c => c.name == nameCol) = some nc) :
    dropnaByName t = .ok (t.map (fun col =>
      col.withCells (applyMask (nc.cells.map (fun x => !x.isNa)) col.cells))) := by
  unfold dropnaByName
  rw [h]

/-- `fillAge` fails with `KeyError` when the age column is not found. -/
theorem fillAge_none {t : Table}
    (h : t.find? (fun c => c.name == ageCol) = none) :
    fillAge t = .error .keyError := by
  unfold fillAge
  rw [h]

/-- `fillAge` on a table whose age column is found. -/
theorem fillAge_some {t : Table} {ac : Col}
    (h : t.find? (fun c => c.name == ageCol) = some ac) :
    fillAge t = .ok (t.map (fun col =>
      if col.name == ageCol then
        col.withCells (if (numsOf col.cells).isEmpty then col.cells
          else fillna (.num (median (numsOf col.cells))) col.cells)
      else col)) := by
  unfold fillAge
  rw [h]

/-- `fillScores` fails with `ValueError` when some rating column has no
numeric value (its mean is NaN and `int(nan)` raises). -/
theorem fillScores_valueError {t : Table}
    (h : t.any (fun col => isScoreName col.name && (numsOf col.cells).isEmpty)
      = true) : fillScores t = .error .valueError := by
  unfold fillScores
  rw [if_pos h]

/-- Applying a row mask whose entries are all `false` empties every
column. -/
theorem applyMask_all_false {mask : List Bool}
    (hm : ∀ b ∈ mask, b = false) (cells : List Cell) :
    applyMask mask cells = [] := by
  induction mask generalizing cells with
  | nil => rfl
  | cons b bs ih =>
      cases cells with
      | nil => rfl
      | cons c cs =>
          have hb : b = false := hm b (List.mem_cons_self _ _)
          subst hb
          have hrec : applyMask bs cs = [] := by
            apply ih
            intro x hx
            exact hm x (List.mem_cons_of_mem _ hx)
          calc applyMask (false :: bs) (c :: cs)
              = applyMask bs cs := by simp [applyMask]
            _ = [] := hrec

/-- Applying an all-`true` row mask covering the column keeps it
unchanged. -/
theorem applyMask_all_true {mask : List Bool} {cells : List Cell}
    (hm : ∀ b ∈ mask, b = true) (hl : cells.length ≤ mask.length) :
    applyMask mask cells = cells := by
  induction mask generalizing cells with
  | nil =>
      cases cells with
      | nil => rfl
      | cons c cs => simp at hl
  | cons b bs ih =>
      cases cells with
      | nil => rfl
      | cons c cs =>
          have hb : b = true := hm b (List.mem_cons_self _ _)
          subst hb
          have hrec : applyMask bs cs = cs := by
            apply ih
            · intro x hx
              exact hm x (List.mem_cons_of_mem _ hx)
            · simpa using hl
          calc applyMask (true :: bs) (c :: cs)
              = c :: applyMask bs cs := by simp [applyMask]
            _ = c :: cs := by rw [hrec]

/-- `fillna` does nothing on a column without missing values. -/
theorem fillna_of_no_na {cells : List Cell}
    (h : cells.all (fun x => !x.isNa) = true) (v : Cell) :
    fillna v cells = cells := by
  unfold fillna
  have : ∀ c ∈ cells, (match c with | Cell.na => v | c => c) = id c := by
    intro c hc
    have := List.all_eq_true.mp h c hc
    cases c with
    | na => simp [Cell.isNa] at this
    | num q => rfl
    | str s => rfl
  rw [List.map_congr_left this, List.map_id]

/-- Mapping a column-wise transformation that fixes every column of the
table is the identity. -/
theorem map_id_of_eq {t : Table} {f : Col → Col} (h : ∀ c ∈ t, f c = c) :
    t.map f = t := by
  rw [List.map_congr_left (g := id) h, List.map_id]

/-- Replacing a column's cells by themselves is the identity. -/
theorem Col.withCells_self (c : Col) : c.withCells c.cells = c := rfl

/-- Every stage transformation preserves the list of column names. -/
theorem map_names_eq {f : Col → Col} (hf : ∀ c, (f c).name = c.name)
    (t : Table) : (t.map f).map Col.name = t.map Col.name := by
  rw [List.map_map]
  exact List.map_congr_left fun c _ => hf c

/-! ## C5 — amended failure conditions -/

/-- C5 (amended): normalization fails (with a key-lookup error — no
SchemaError class exists) whenever the respondent-identifier column or the
age column is absent; the absence of a rating-question column is *not*
detected (they are discovered by prefix); and when zero rows survive the
identifier filter it fails with a NaN-to-int conversion error (no
EmptyDatasetError class) provided at least one rating-question column is
present. -/
theorem process_failure_conditions :
    (∀ t : Table, (∀ c ∈ t, c.name ≠ nameCol) →
      process_exit_survey t = .error .keyError) ∧
    (∀ t : Table, (∀ c ∈ t, c.name ≠ ageCol) →
      process_exit_survey t = .error .keyError) ∧
    (∀ (t t₁ : Table) (nc : Col), dropCols t = .ok t₁ →
      t₁.find? (fun c => c.name == nameCol) = some nc →
      nc.cells.all Cell.isNa = true →
      (∃ c ∈ t₁, c.name = ageCol) →
      (∃ c ∈ t₁, isScoreName c.name = true) →
      process_exit_survey t = .error .valueError) := by
  refine ⟨?_, ?_, ?_⟩
  · intro t ht
    unfold process_exit_survey
    cases hd : dropCols t with
    | error e =>
        have he : e = PyError.keyError := dropCols_error_keyError hd
        subst he
        rw [except_bind_error]
    | ok t₁ =>
        rw [except_bind_ok]
        have hfind : t₁.find? (fun c => c.name == nameCol) = none := by
          rw [List.find?_eq_none]
          intro c hc
          have hmem : c ∈ t := List.mem_of_mem_filter (dropCols_ok_eq hd ▸ hc)
          simpa using ht c hmem
        rw [dropnaByName_none hfind, except_bind_error]
  · intro t ht
    unfold process_exit_survey
    cases hd : dropCols t with
    | error e =>
        have he : e = PyError.keyError := dropCols_error_keyError hd
        subst he
        rw [except_bind_error]
    | ok t₁ =>
        rw [except_bind_ok]
        have ht₁ : ∀ c ∈ t₁, c.name ≠ ageCol := by
          intro c hc
          exact ht c (List.mem_of_mem_filter (dropCols_ok_eq hd ▸ hc))
        cases hf : t₁.find? (fun c => c.name == nameCol) with
        | none => rw [dropnaByName_none hf, except_bind_error]
        | some nc =>
            rw [dropnaByName_some hf, except_bind_ok]
            have hage : (fillnaIf (fun n => pyStartswith n "Q6") (.str noneSentinel)
                (t₁.map (fun col => col.withCells
                  (applyMask (nc.cells.map (fun x => !x.isNa)) col.cells)))).find?
                  (fun c => c.name == ageCol) = none := by
              rw [List.find?_eq_none]
              intro c hc
              simp only [fillnaIf, List.mem_map] at hc
              obtain ⟨c₂, hc₂, rfl⟩ := hc
              obtain ⟨c₁, hc₁, rfl⟩ := hc₂
              have hname : c₁.name ≠ ageCol := ht₁ c₁ hc₁
              split <;> simp [Col.withCells, hname]
            rw [fillAge_none hage, except_bind_error]
  · intro t t₁ nc hd hf hna hage hscore
    unfold process_exit_survey
    rw [hd, except_bind_ok, dropnaByName_some hf, except_bind_ok]
    have hmaskF : ∀ b ∈ nc.cells.map (fun x => !x.isNa), b = false := by
      intro b hb
      obtain ⟨x, hx, rfl⟩ := List.mem_map.mp hb
      have := List.all_eq_true.mp hna x hx
      simp [this]
    -- after the row filter every column is empty
    have hempty : ∀ c : Col,
        (c.withCells (applyMask (nc.cells.map (fun x => !x.isNa)) c.cells)).cells
          = [] := fun c => applyMask_all_false hmaskF c.cells
    -- the age column is still found, so fillAge succeeds
    obtain ⟨ca, hca, hcaname⟩ := hage
    set t₂ := t₁.map (fun col =>
      col.withCells (applyMask (nc.cells.map (fun x => !x.isNa)) col.cells)) with ht₂
    set t₃ := fillnaIf (fun n => pyStartswith n "Q6") (.str noneSentinel) t₂ with ht₃
    have hfindage : (t₃.find? (fun c => c.name == ageCol)).isSome = true := by
      rw [List.find?_isSome]
      refine ⟨?_, ?_, ?_⟩
      · exact (if pyStartswith (ca.withCells (applyMask
          (nc.cells.map (fun x => !x.isNa)) ca.cells)).name "Q6" then
            (ca.withCells (applyMask (nc.cells.map (fun x => !x.isNa)) ca.cells)).withCells
              (fillna (.str noneSentinel) (ca.withCells (applyMask
                (nc.cells.map (fun x => !x.isNa)) ca.cells)).cells)
          else ca.withCells (applyMask (nc.cells.map (fun x => !x.isNa)) ca.cells))
      · rw [ht₃]
        unfold fillnaIf
        rw [ht₂]
        exact List.mem_map_of_mem _ (List.mem_map_of_mem _ hca)
      · simp only [Col.withCells, hcaname]
        split <;> simp
    cases hfa : t₃.find? (fun c => c.name == ageCol) with
    | none => rw [hfa] at hfindage; cases hfindage
    | some ac =>
        rw [fillAge_some hfa, except_bind_ok]
        -- a rating column with empty cells survives into the fillScores check
        obtain ⟨cs, hcs, hcsname⟩ := hscore
        have hvc : (t₃.map (fun col =>
            if col.name == ageCol then
              col.withCells (if (numsOf col.cells).isEmpty then col.cells
                else fillna (.num (median (numsOf col.cells))) col.cells)
            else col)).any (fun col =>
              isScoreName col.name && (numsOf col.cells).isEmpty) = true := by
          rw [List.any_eq_true]
          set c₂ := cs.withCells (applyMask (nc.cells.map (fun x => !x.isNa)) cs.cells)
            with hc₂def
          have hc₂ : c₂ ∈ t₂ := by
            rw [ht₂]
            exact List.mem_map_of_mem _ hcs
          have hc₂cells : c₂.cells = [] := hempty cs
          have hc₂name : c₂.name = cs.name := rfl
          set c₃ := if pyStartswith c₂.name "Q6" then
              c₂.withCells (fillna (.str noneSentinel) c₂.cells) else c₂ with hc₃def
          have hc₃ : c₃ ∈ t₃ := by
            rw [ht₃]
            unfold fillnaIf
            exact List.mem_map_of_mem _ hc₂
          have hc₃cells : c₃.cells = [] := by
            rw [hc₃def]
            split <;> simp [Col.withCells, hc₂cells, fillna]
          have hc₃name : c₃.name = cs.name := by
            rw [hc₃def]
            split <;> simp [Col.withCells, hc₂name]
          refine ⟨if c₃.name == ageCol then
              c₃.withCells (if (numsOf c₃.cells).isEmpty then c₃.cells
                else fillna (.num (median (numsOf c₃.cells))) c₃.cells)
            else c₃, List.mem_map_of_mem _ hc₃, ?_⟩
          split <;> simp [Col.withCells, hc₃cells, hc₃name, hcsname, numsOf]
        rw [fillScores_valueError hvc, except_bind_error]

/-- Witness for C5 (amended): a table without the identifier column fails
with the key error, and a complete table whose identifier cells are all
missing fails with the conversion error. -/
theorem process_failure_conditions_witness :
    process_exit_survey ex_no_q13_q14 = .error .keyError ∧
    process_exit_survey ([] : Table) = .error .keyError ∧
    process_exit_survey ex_all_rows_invalid = .error .valueError :=
  ⟨process_failure_conditions.1 ex_no_q13_q14 (by decide),
   process_failure_conditions.2.1 [] (by decide),
   process_failure_conditions.2.2 ex_all_rows_invalid
     [⟨nameCol, false, [.na]⟩, ⟨ageCol, false, [.num 35]⟩,
      ⟨"Q7.1 Оцените качество кейсов", false, [.num 9]⟩]
     ⟨nameCol, false, [.na]⟩ (by decide) (by decide) (by decide)
     (by decide) (by decide)⟩

/-! ## C6 — amended idempotence -/

/-- C6 (amended): normalization is not idempotent on its own outputs — on
any table lacking the "PS0 Start" metadata column (every normalized table
does) it fails with the missing-label key error of the unconditional column
drop.  It is idempotent only modulo that drop: an otherwise-normalized table
that still carries the two named metadata columns is returned unchanged
except for removing exactly those two columns. -/
theorem process_idempotent_modulo_metadata :
    (∀ t : Table, (∀ c ∈ t, c.name ≠ "PS0 Start") →
      process_exit_survey t = .error .keyError) ∧
    (∀ t : Table, normalizedWithMeta t = true →
      process_exit_survey t = .ok (t.filter (fun c =>
        !((["PS0 Start", "PD0 Duration , sec"] : List String).contains c.name)))) := by
  constructor
  · intro t ht
    have hall : ((colsToDrop t).all (fun l => t.any (fun c => c.name == l)))
        = false := by
      cases hv : (colsToDrop t).all (fun l => t.any (fun c => c.name == l)) with
      | false => rfl
      | true =>
          exfalso
          have hm : "PS0 Start" ∈ colsToDrop t := by
            unfold colsToDrop
            exact List.mem_append_left _ (List.mem_cons_self _ _)
          have := List.all_eq_true.mp hv _ hm
          obtain ⟨c, hc, hb⟩ := List.any_eq_true.mp this
          exact ht c hc (by simpa using hb)
    have hdrop : dropCols t = .error .keyError := by
      unfold dropCols
      rw [hall]
      simp
    unfold process_exit_survey
    rw [hdrop, except_bind_error]
  · intro t h
    simp only [normalizedWithMeta, Bool.and_eq_true] at h
    obtain ⟨⟨⟨⟨⟨⟨⟨⟨hps, hpd⟩, hserv⟩, hname⟩, hage⟩, hfa⟩, hcov⟩, hscore⟩,
      hrect⟩ := h
    have hserv' : (t.map Col.name).filter isServiceName = [] := by
      rw [List.filter_eq_nil_iff]
      intro n hn
      obtain ⟨c, hc, rfl⟩ := List.mem_map.mp hn
      have := List.all_eq_true.mp hserv c hc
      simp only [Bool.and_eq_true, Bool.not_eq_true'] at this
      simp [this.1]
    have hunn' : (t.map Col.name).filter isUnnamedName = [] := by
      rw [List.filter_eq_nil_iff]
      intro n hn
      obtain ⟨c, hc, rfl⟩ := List.mem_map.mp hn
      have := List.all_eq_true.mp hserv c hc
      simp only [Bool.and_eq_true, Bool.not_eq_true'] at this
      simp [this.2]
    have hdropList : colsToDrop t = ["PS0 Start", "PD0 Duration , sec"] := by
      unfold colsToDrop
      rw [hserv', hunn']
      simp
    have hdrop : dropCols t = .ok (t.filter (fun c =>
        !((["PS0 Start", "PD0 Duration , sec"] : List String).contains c.name))) := by
      unfold dropCols
      rw [hdropList]
      rw [if_pos (by simp [hps, hpd])]
    set t₁ := t.filter (fun c =>
      !((["PS0 Start", "PD0 Duration , sec"] : List String).contains c.name))
      with ht₁
    have hsub : ∀ c ∈ t₁, c ∈ t := by
      intro c hc
      rw [ht₁] at hc
      exact List.mem_of_mem_filter hc
    have hcov' : ∀ c ∈ t, coveredName c.name = true →
        c.cells.all (fun x => !x.isNa) = true := by
      intro c hc hcn
      have := List.all_eq_true.mp hcov c hc
      simpa [hcn] using this
    -- the identifier column is present in the pruned table
    obtain ⟨cn, hcnmem, hcnb⟩ := List.any_eq_true.mp hname
    have hcneq : cn.name = nameCol := by simpa using hcnb
    have hcn₁ : cn ∈ t₁ := by
      rw [ht₁]
      refine List.mem_filter.mpr ⟨hcnmem, ?_⟩
      rw [hcneq]
      decide
    have hsomen : (t₁.find? (fun c => c.name == nameCol)).isSome = true :=
      List.find?_isSome.mpr ⟨cn, hcn₁, hcnb⟩
    obtain ⟨nc, hncfind⟩ := Option.isSome_iff_exists.mp hsomen
    have hncmem : nc ∈ t₁ := List.mem_of_find?_eq_some hncfind
    have hncname : nc.name = nameCol := by simpa using List.find?_some hncfind
    have hncna : nc.cells.all (fun x => !x.isNa) = true :=
      hcov' nc (hsub nc hncmem) (by simp [coveredName, hncname])
    have hmaskT : ∀ b ∈ nc.cells.map (fun x => !x.isNa), b = true := by
      intro b hb
      obtain ⟨x, hx, rfl⟩ := List.mem_map.mp hb
      exact List.all_eq_true.mp hncna x hx
    have hlen : ∀ c ∈ t₁, c.cells.length = nc.cells.length := by
      intro c hc
      have h1 := List.all_eq_true.mp hrect c (hsub c hc)
      have h2 := List.all_eq_true.mp h1 nc (hsub nc hncmem)
      simpa using h2
    have ht2 : t₁.map (fun col =>
        col.withCells (applyMask (nc.cells.map (fun x => !x.isNa)) col.cells))
        = t₁ := by
      apply map_id_of_eq
      intro c hc
      have hmask : applyMask (nc.cells.map (fun x => !x.isNa)) c.cells
          = c.cells := by
        apply applyMask_all_true hmaskT
        rw [List.length_map]
        exact le_of_eq (hlen c hc)
      rw [hmask]
      exact Col.withCells_self c
    have ht3 : fillnaIf (fun n => pyStartswith n "Q6") (.str noneSentinel) t₁
        = t₁ := by
      unfold fillnaIf
      apply map_id_of_eq
      intro c hc
      by_cases hq : pyStartswith c.name "Q6" = true
      · rw [if_pos hq,
          fillna_of_no_na (hcov' c (hsub c hc) (by simp [coveredName, hq]))]
        exact Col.withCells_self c
      · rw [if_neg hq]
    -- the age column is present in the pruned table
    obtain ⟨ca, hcamem, hcab⟩ := List.any_eq_true.mp hage
    have hcaeq : ca.name = ageCol := by simpa using hcab
    have hca₁ : ca ∈ t₁ := by
      rw [ht₁]
      refine List.mem_filter.mpr ⟨hcamem, ?_⟩
      rw [hcaeq]
      decide
    have hsomea : (t₁.find? (fun c => c.name == ageCol)).isSome = true :=
      List.find?_isSome.mpr ⟨ca, hca₁, hcab⟩
    obtain ⟨ac, hacfind⟩ := Option.isSome_iff_exists.mp hsomea
    have hfillage : fillAge t₁ = .ok t₁ := by
      rw [fillAge_some hacfind]
      congr 1
      apply map_id_of_eq
      intro c hc
      by_cases hy : (c.name == ageCol) = true
      · rw [if_pos hy]
        have hnafree := hcov' c (hsub c hc) (by simp [coveredName, hy])
        by_cases he : (numsOf c.cells).isEmpty = true
        · rw [if_pos he]
          exact Col.withCells_self c
        · rw [if_neg he, fillna_of_no_na hnafree]
          exact Col.withCells_self c
      · rw [if_neg hy]
    have hscorecheck : (t₁.any fun col =>
        isScoreName col.name && (numsOf col.cells).isEmpty) = false := by
      rw [List.any_eq_false]
      intro c hc
      have := List.all_eq_true.mp hscore c (hsub c hc)
      by_cases hs : isScoreName c.name = true
      · have h2 : (numsOf c.cells).isEmpty = false := by simpa [hs] using this
        simp [hs, h2]
      · simp [hs]
    have hfillscores : fillScores t₁ = .ok t₁ := by
      unfold fillScores
      rw [if_neg (by simp [hscorecheck])]
      congr 1
      apply map_id_of_eq
      intro c hc
      by_cases hs : isScoreName c.name = true
      · rw [if_pos hs,
          fillna_of_no_na (hcov' c (hsub c hc) (by simp [coveredName, hs]))]
        exact Col.withCells_self c
      · rw [if_neg hs]
    have hfachk : (free_answer_cols.all
        (fun l => t₁.any (fun c => c.name == l))) = true := by
      rw [List.all_eq_true]
      intro l hl
      obtain ⟨c, hc, hcb⟩ := List.any_eq_true.mp (List.all_eq_true.mp hfa l hl)
      rw [List.any_eq_true]
      refine ⟨c, ?_, hcb⟩
      rw [ht₁]
      refine List.mem_filter.mpr ⟨hc, ?_⟩
      have hnl : ∀ l₀ ∈ free_answer_cols,
          ((["PS0 Start", "PD0 Duration , sec"] : List String).contains l₀)
            = false := by decide
      have hceq : c.name = l := by simpa using hcb
      rw [hceq, hnl l hl]
      decide
    have hfillfa : fillFreeAnswers t₁ = .ok t₁ := by
      unfold fillFreeAnswers
      rw [if_pos hfachk]
      congr 1
      apply map_id_of_eq
      intro c hc
      by_cases hfc : free_answer_cols.contains c.name = true
      · have hmem : c.name ∈ free_answer_cols := by simpa using hfc
        rw [if_pos hfc,
          fillna_of_no_na (hcov' c (hsub c hc) (by simp [coveredName, hmem]))]
        exact Col.withCells_self c
      · rw [if_neg hfc]
    unfold process_exit_survey
    rw [hdrop, except_bind_ok, dropnaByName_some hncfind, except_bind_ok, ht2,
      ht3, hfillage, except_bind_ok, hfillscores, except_bind_ok, hfillfa]

/-- Witness for C6 (amended): the concrete normalized table fails, and the
concrete table with the metadata columns comes back with exactly those two
columns dropped. -/
theorem process_idempotent_modulo_metadata_witness :
    process_exit_survey ex_normalized = .error .keyError ∧
    process_exit_survey ex_with_meta = .ok (ex_with_meta.filter (fun c =>
      !((["PS0 Start", "PD0 Duration , sec"] : List String).contains c.name))) :=
  ⟨process_idempotent_modulo_metadata.1 ex_normalized (by decide),
   process_idempotent_modulo_metadata.2 ex_with_meta (by decide)⟩

/-! ## Sorting and association-list lemmas -/

/-- Stable insertion produces a permutation of consing. -/
theorem insertSorted_perm (le : α → α → Bool) (a : α) (l : List α) :
    (insertSorted le a l).Perm (a :: l) := by
  induction l with
  | nil => exact List.Perm.refl _
  | cons b bs ih =>
      by_cases h : le a b = true
      · rw [insertSorted, if_pos h]
      · rw [insertSorted, if_neg h]
        exact (ih.cons b).trans (List.Perm.swap a b bs)

/-- The insertion sort produces a permutation of its input. -/
theorem sortBy_perm (le : α → α → Bool) (l : List α) : (sortBy le l).Perm l := by
  induction l with
  | nil => exact List.Perm.refl _
  | cons a as ih =>
      exact (insertSorted_perm le a (sortBy le as)).trans (ih.cons a)

/-- Stable insertion preserves sortedness for a total transitive
comparison. -/
theorem insertSorted_pairwise {le : α → α → Bool}
    (htot : ∀ a b, (le a b || le b a) = true)
    (htrans : ∀ a b c, le a b = true → le b c = true → le a c = true)
    (a : α) {l : List α} (hl : l.Pairwise (fun x y => le x y = true)) :
    (insertSorted le a l).Pairwise (fun x y => le x y = true) := by
  induction l with
  | nil => simp [insertSorted]
  | cons b bs ih =>
      rw [List.pairwise_cons] at hl
      obtain ⟨hb, hbs⟩ := hl
      by_cases h : le a b = true
      · rw [insertSorted, if_pos h, List.pairwise_cons]
        constructor
        · intro x hx
          rcases List.mem_cons.mp hx with rfl | hx2
          · exact h
          · exact htrans a b x h (hb x hx2)
        · rw [List.pairwise_cons]
          exact ⟨hb, hbs⟩
      · rw [insertSorted, if_neg h, List.pairwise_cons]
        constructor
        · intro x hx
          rcases List.mem_cons.mp ((insertSorted_perm le a bs).mem_iff.mp hx)
            with heq | hx2
          · rw [heq]
            have := htot a b
            rw [Bool.or_eq_true] at this
            rcases this with h1 | h2
            · exact absurd h1 h
            · exact h2
          · exact hb x hx2
        · exact ih hbs

/-- The insertion sort sorts, for a total transitive comparison. -/
theorem sortBy_pairwise {le : α → α → Bool}
    (htot : ∀ a b, (le a b || le b a) = true)
    (htrans : ∀ a b c, le a b = true → le b c = true → le a c = true)
    (l : List α) : (sortBy le l).Pairwise (fun x y => le x y = true) := by
  induction l with
  | nil => simp [sortBy]
  | cons a as ih => exact insertSorted_pairwise htot htrans a ih

/-- In an association list with distinct keys, `lookup` finds the unique
entry holding the key. -/
theorem lookup_eq_of_nodup {α β : Type} [DecidableEq α] {l : List (α × β)}
    {k : α} {v : β} (hnd : (l.map Prod.fst).Nodup) (hmem : (k, v) ∈ l) :
    l.lookup k = some v := by
  induction l with
  | nil => cases hmem
  | cons p ps ih =>
      obtain ⟨pk, pv⟩ := p
      rw [List.map_cons, List.nodup_cons] at hnd
      rcases List.mem_cons.mp hmem with heq | hmem2
      · injection heq with h1 h2
        subst h1
        subst h2
        simp [List.lookup]
      · have hne : (k == pk) = false := by
          rw [beq_eq_false_iff_ne]
          intro hkp
          apply hnd.1
          rw [← hkp]
          exact List.mem_map.mpr ⟨(k, v), hmem2, rfl⟩
        simp only [List.lookup, hne]
        exact ih hnd.2 hmem2

/-- `setKey` always leaves its key-value pair in the list. -/
theorem setKey_mem {α : Type} [DecidableEq α] (l : List (α × ℕ)) (k : α)
    (v : ℕ) : (k, v) ∈ setKey l k v := by
  unfold setKey
  by_cases h : l.any (fun p => p.1 == k) = true
  · rw [if_pos h]
    obtain ⟨p, hp, hpb⟩ := List.any_eq_true.mp h
    refine List.mem_map.mpr ⟨p, hp, ?_⟩
    rw [if_pos hpb]
  · rw [if_neg h]
    exact List.mem_append_right _ (List.mem_singleton.mpr rfl)

/-- `setKey` preserves key distinctness. -/
theorem setKey_keys_nodup {α : Type} [DecidableEq α] {l : List (α × ℕ)}
    (k : α) (v : ℕ) (hnd : (l.map Prod.fst).Nodup) :
    ((setKey l k v).map Prod.fst).Nodup := by
  unfold setKey
  by_cases h : l.any (fun p => p.1 == k) = true
  · rw [if_pos h]
    have e : (l.map (fun p => if p.1 == k then (k, v) else p)).map Prod.fst
        = l.map Prod.fst := by
      rw [List.map_map]
      apply List.map_congr_left
      intro p hp
      by_cases hpk : (p.1 == k) = true
      · have hpe : p.1 = k := by simpa using hpk
        simp [hpe]
      · have hne : p.1 ≠ k := by simpa using hpk
        simp [hne]
    rw [e]
    exact hnd
  · rw [if_neg h, List.map_append, List.nodup_append]
    refine ⟨hnd, List.nodup_singleton _, ?_⟩
    intro x hx hx2
    obtain ⟨p, hp, rfl⟩ := List.mem_map.mp hx
    have := List.any_eq_false.mp (Bool.not_eq_true _ ▸ h) p hp
    have hpe : p.1 = k := by
      simpa using List.mem_singleton.mp hx2
    simp [hpe] at this

/-- An entry with a different key survives `setKey` untouched. -/
theorem setKey_mem_of_ne {α : Type} [DecidableEq α] {l : List (α × ℕ)}
    {p : α × ℕ} (hp : p ∈ l) (k : α) (v : ℕ) (hne : p.1 ≠ k) :
    p ∈ setKey l k v := by
  unfold setKey
  by_cases h : l.any (fun q => q.1 == k) = true
  · rw [if_pos h]
    refine List.mem_map.mpr ⟨p, hp, ?_⟩
    rw [if_neg (by simpa using hne)]
  · rw [if_neg h]
    exact List.mem_append_left _ hp

/-- The keys of `valueCounts` are the distinct values, hence distinct. -/
theorem valueCounts_keys_nodup {α : Type} [DecidableEq α] (l : List α) :
    ((valueCounts l).map Prod.fst).Nodup := by
  unfold valueCounts
  have hperm : ((sortBy (fun p q => decide (q.2 ≤ p.2))
      (l.dedup.map (fun v => (v, l.count v)))).map Prod.fst).Perm
      ((l.dedup.map (fun v => (v, l.count v))).map Prod.fst) :=
    (sortBy_perm _ _).map _
  rw [hperm.nodup_iff, List.map_map]
  have e : (Prod.fst ∘ fun v => (v, l.count v)) = id := rfl
  rw [e, List.map_id]
  exact l.nodup_dedup

/-- Every value of the input is paired with its occurrence count in
`valueCounts`. -/
theorem mem_valueCounts {α : Type} [DecidableEq α] {l : List α} {v : α}
    (hv : v ∈ l) : (v, l.count v) ∈ valueCounts l := by
  unfold valueCounts
  rw [(sortBy_perm _ _).mem_iff]
  exact List.mem_map_of_mem _ (List.mem_dedup.mpr hv)

/-! ## C10 — the "Никто" entry -/

/-- C10: for every input table the result of `get_top_lectors` contains the
"Никто" key — with count 0 when no row is all-zero — and its final count is
exactly the number of all-zero rows: any tally the literal value "Никто"
accumulated among the flattened selections is overwritten, not added to. -/
theorem get_top_lectors_none_key (t : Table) :
    (get_top_lectors t).lookup (Cell.str "Никто") = some (zeros_count t) := by
  unfold get_top_lectors
  apply lookup_eq_of_nodup
  · exact (((sortBy_perm _ _).map Prod.fst).nodup_iff).mpr
      (setKey_keys_nodup _ _ (valueCounts_keys_nodup _))
  · rw [(sortBy_perm _ _).mem_iff]
    exact setKey_mem _ _ _

/-! ## C9 — ranked lecturer selections -/

/-- C9 is false as stated: with two all-zero rows and one selection of the
literal value "Никто", the selection's occurrence count (1) is not what the
returned mapping reports under its value — the "none" count (2) overwrites
it. -/
theorem get_top_lectors_tally_cx :
    get_top_lectors lectors_cx_table = [(.str "Никто", 2)] ∧
    (lectors lectors_cx_table).count (Cell.str "Никто") = 1 ∧
    ¬ (∀ v ∈ lectors lectors_cx_table,
        (get_top_lectors lectors_cx_table).lookup v
          = some ((lectors lectors_cx_table).count v)) := by decide

/-- C9 (amended): provided the literal "Никто" does not occur among the
flattened nonzero selections, the mapping returned by `get_top_lectors`
gives the "Никто" category exactly the all-zero-row count, gives every
selected choice value its occurrence count, and is sorted ascending by
count; when "Никто" does occur as a selection, its tally is overwritten by
the all-zero-row count rather than added to it (C10). -/
theorem get_top_lectors_spec (t : Table)
    (hno : Cell.str "Никто" ∉ lectors t) :
    (get_top_lectors t).lookup (Cell.str "Никто") = some (zeros_count t) ∧
    (∀ v ∈ lectors t,
      (get_top_lectors t).lookup v = some ((lectors t).count v)) ∧
    (get_top_lectors t).Pairwise (fun p q => p.2 ≤ q.2) := by
  refine ⟨?_, ?_, ?_⟩
  · unfold get_top_lectors
    apply lookup_eq_of_nodup
    · exact (((sortBy_perm _ _).map Prod.fst).nodup_iff).mpr
        (setKey_keys_nodup _ _ (valueCounts_keys_nodup _))
    · rw [(sortBy_perm _ _).mem_iff]
      exact setKey_mem _ _ _
  · intro v hv
    unfold get_top_lectors
    apply lookup_eq_of_nodup
    · exact (((sortBy_perm _ _).map Prod.fst).nodup_iff).mpr
        (setKey_keys_nodup _ _ (valueCounts_keys_nodup _))
    · rw [(sortBy_perm _ _).mem_iff]
      exact setKey_mem_of_ne (mem_valueCounts hv) _ _
        (fun he => hno (he ▸ hv))
  · have htot : ∀ (p q : Cell × ℕ),
        (decide (p.2 ≤ q.2) || decide (q.2 ≤ p.2)) = true := by
      intro p q
      rcases le_total p.2 q.2 with h | h <;> simp [h]
    have htrans : ∀ (p q r : Cell × ℕ), decide (p.2 ≤ q.2) = true →
        decide (q.2 ≤ r.2) = true → decide (p.2 ≤ r.2) = true := by
      intro p q r h1 h2
      simp only [decide_eq_true_eq] at h1 h2 ⊢
      exact le_trans h1 h2
    have hs := sortBy_pairwise htot htrans
      (setKey (valueCounts (lectors t)) (.str "Никто") (zeros_count t))
    unfold get_top_lectors
    exact List.Pairwise.imp (fun h => by simpa using h) hs

/-- Witness for C9 (amended) at the concrete two-column lecturer table. -/
theorem get_top_lectors_spec_witness :
    (get_top_lectors lectors_example).lookup (Cell.str "Никто")
        = some (zeros_count lectors_example) ∧
    (∀ v ∈ lectors lectors_example,
      (get_top_lectors lectors_example).lookup v
        = some ((lectors lectors_example).count v)) ∧
    (get_top_lectors lectors_example).Pairwise (fun p q => p.2 ≤ q.2) :=
  get_top_lectors_spec lectors_example (by decide)

/-! ## C3 — rating-histogram invariant -/

/-- `pure` in the `Except` monad is `ok`. -/
theorem except_pure_eq (a : α) : (pure a : Except ε α) = Except.ok a := rfl

/-- A successful `mapExcept` relates inputs and outputs pointwise. -/
theorem mapExcept_ok {α β ε : Type} {f : α → Except ε β} :
    ∀ {l : List α} {out : List β}, mapExcept f l = .ok out →
      List.Forall₂ (fun a b => f a = .ok b) l out := by
  intro l
  induction l with
  | nil =>
      intro out h
      injection h with h
      subst h
      exact List.Forall₂.nil
  | cons a as ih =>
      intro out h
      simp only [mapExcept] at h
      cases hfa : f a with
      | error e =>
          rw [hfa, except_bind_error] at h
          cases h
      | ok b =>
          rw [hfa, except_bind_ok] at h
          cases hm : mapExcept f as with
          | error e =>
              rw [hm, except_bind_error] at h
              cases h
          | ok r =>
              rw [hm, except_bind_ok, except_pure_eq] at h
              injection h with h
              subst h
              exact List.Forall₂.cons hfa (ih hm)

/-- A `Forall₂` relation supplies a related left element for every right
element. -/
theorem mem_right_of_forall₂ {α β : Type} {R : α → β → Prop} :
    ∀ {l₁ : List α} {l₂ : List β}, List.Forall₂ R l₁ l₂ →
      ∀ b ∈ l₂, ∃ a ∈ l₁, R a b := by
  intro l₁ l₂ hf
  induction hf with
  | nil =>
      intro b hb
      cases hb
  | cons hab htail ih =>
      intro b hb
      rcases List.mem_cons.mp hb with heq | hb2
      · exact ⟨_, List.mem_cons_self _ _, heq ▸ hab⟩
      · obtain ⟨a, ha, hr⟩ := ih b hb2
        exact ⟨a, List.mem_cons_of_mem _ ha, hr⟩

/-- The histogram always has exactly the ten buckets 1..10. -/
theorem histCounts_length (scores : List ℤ) : (histCounts scores).length = 10 := by
  simp [histCounts]

/-- Bucket `i` (0-based) of the histogram counts the occurrences of rating
value `i + 1` — an explicit zero when the value is unused. -/
theorem histCounts_getD (scores : List ℤ) (i : ℕ) (hi : i < 10) :
    (histCounts scores).getD i 0
      = scores.countP (fun s => s == (i : ℤ) + 1) := by
  unfold histCounts
  rw [List.getD_eq_getElem?_getD, List.getElem?_map, List.getElem?_range hi]
  rfl

/-- Summing a pointwise sum of two maps splits. -/
theorem sum_map_add_nat {α : Type} (l : List α) (f g : α → ℕ) :
    (l.map (fun x => f x + g x)).sum = (l.map f).sum + (l.map g).sum := by
  induction l with
  | nil => rfl
  | cons a as ih =>
      simp only [List.map_cons, List.sum_cons, ih]
      omega

/-- When every score lies in 1..10, the ten bucket counts sum to the number
of scores. -/
theorem histCounts_sum (scores : List ℤ)
    (h : ∀ s ∈ scores, 1 ≤ s ∧ s ≤ 10) :
    (histCounts scores).sum = scores.length := by
  induction scores with
  | nil => decide
  | cons v vs ih =>
      have hv := h v (List.mem_cons_self _ _)
      have ihv := ih (fun s hs => h s (List.mem_cons_of_mem _ hs))
      unfold histCounts at ihv ⊢
      have e : ((List.range 10).map (fun (i : ℕ) =>
          (v :: vs).countP (fun s => s == (i : ℤ) + 1))) =
          ((List.range 10).map (fun (i : ℕ) =>
            vs.countP (fun s => s == (i : ℤ) + 1) +
              (if (v == (i : ℤ) + 1) = true then 1 else 0))) := by
        apply List.map_congr_left
        intro i _
        exact List.countP_cons _ _ _
      rw [e, sum_map_add_nat, ihv]
      have hone : ((List.range 10).map (fun (i : ℕ) =>
          if (v == (i : ℤ) + 1) = true then 1 else 0)).sum = 1 := by
        obtain ⟨h1, h10⟩ := hv
        interval_cases v <;> decide
      rw [hone, List.length_cons]

/-- Values produced by a successful `astype(int)` conversion of in-range
cells lie in 1..10. -/
theorem vals_in_range {cells : List Cell} {vals : List ℤ}
    (hok : mapExcept cellToInt cells = .ok vals)
    (hr : ∀ x ∈ cells, cellInRange x = true) :
    ∀ s ∈ vals, 1 ≤ s ∧ s ≤ 10 := by
  intro s hs
  obtain ⟨x, hx, hconv⟩ := mem_right_of_forall₂ (mapExcept_ok hok) s hs
  have hxr := hr x hx
  cases x with
  | na => simp [cellInRange] at hxr
  | str s2 => simp [cellInRange] at hxr
  | num q =>
      simp only [cellToInt] at hconv
      injection hconv with hconv
      subst hconv
      simpa [cellInRange, Bool.and_eq_true, decide_eq_true_eq] using hxr

/-- The per-dimension content of the `get_pilos` output: ten buckets,
explicit zero counts, bucket sums equal to the respondent count. -/
theorem pilos_rows_spec {labels : List String} {cols : List Col}
    {scores : List (List ℤ)}
    (hf : List.Forall₂ (fun (c : Col) s => mapExcept cellToInt c.cells = .ok s)
      cols scores)
    (hlab : labels.length = cols.length)
    (hr : ∀ c ∈ cols, ∀ x ∈ c.cells, cellInRange x = true) :
    List.Forall₂ (fun (row : String × List ℕ) (c : Col) =>
      ∃ vals : List ℤ, mapExcept cellToInt c.cells = .ok vals ∧
        row.2.length = 10 ∧ row.2.sum = vals.length ∧
        vals.length = c.cells.length ∧
        (∀ i : ℕ, i < 10 →
          row.2.getD i 0 = vals.countP (fun s => s == (i : ℤ) + 1)))
      (labels.zip (scores.map histCounts)) cols := by
  induction hf generalizing labels with
  | nil =>
      rw [List.map_nil, List.zip_nil_right]
      exact List.Forall₂.nil
  | @cons c s cols2 scores2 hcs htail ih =>
      cases labels with
      | nil => exact absurd hlab (by simp)
      | cons lb lbs =>
          rw [List.map_cons, List.zip_cons_cons]
          refine List.Forall₂.cons ?_ (ih ?_ ?_)
          · refine ⟨s, hcs, histCounts_length s, ?_, ?_, ?_⟩
            · exact histCounts_sum s
                (vals_in_range hcs (hr c (List.mem_cons_self _ _)))
            · exact (List.Forall₂.length_eq (mapExcept_ok hcs)).symm
            · intro i hi
              exact histCounts_getD s i hi
          · simpa using hlab
          · intro c2 hc2 x hx
            exact hr c2 (List.mem_cons_of_mem _ hc2) x hx

/-- C3: for every canonical table whose rating values all lie in 1..10,
every dimension row of the `get_pilos` histogram has exactly the ten bucket
columns for rating values 1..10, values unused by a dimension appear as
explicit zero counts (bucket `i` literally counts value `i + 1`), and the
ten bucket counts of a dimension sum to the number of respondents who
answered that dimension. -/
theorem get_pilos_histogram_invariant (t : Table)
    (out : List (String × List ℕ)) (hok : get_pilos t = .ok out)
    (hrange : ∀ c ∈ t, pyStartswith c.name "Q3" = true →
      ∀ x ∈ c.cells, cellInRange x = true) :
    out.length = 10 ∧
    List.Forall₂ (fun (row : String × List ℕ) (c : Col) =>
      ∃ vals : List ℤ, mapExcept cellToInt c.cells = .ok vals ∧
        row.2.length = 10 ∧ row.2.sum = vals.length ∧
        vals.length = c.cells.length ∧
        (∀ i : ℕ, i < 10 →
          row.2.getD i 0 = vals.countP (fun s => s == (i : ℤ) + 1)))
      out (q3Cols t) := by
  unfold get_pilos at hok
  by_cases hlen : (q3Cols t).length ≠ pilos_new_colnames.length
  · rw [if_pos hlen] at hok
    cases hok
  · rw [if_neg hlen] at hok
    push_neg at hlen
    cases hm : mapExcept (fun (c : Col) => mapExcept cellToInt c.cells)
        (q3Cols t) with
    | error e =>
        rw [hm, except_bind_error] at hok
        cases hok
    | ok scores =>
        rw [hm, except_bind_ok, except_pure_eq] at hok
        injection hok with hok
        subst hok
        constructor
        · have h1 : (q3Cols t).length = scores.length :=
            List.Forall₂.length_eq (mapExcept_ok hm)
          have h2 : pilos_new_colnames.length = 10 := rfl
          rw [List.length_zip, List.length_map, ← h1, hlen, h2]
          simp
        · apply pilos_rows_spec (mapExcept_ok hm) hlen.symm
          intro c hc x hx
          exact hrange c (List.mem_filter.mp hc).1 (List.mem_filter.mp hc).2 x hx

/-- Witness for C3 at the concrete ten-column table with one respondent
scoring 1 on every dimension. -/
theorem get_pilos_histogram_invariant_witness :
    pilos_example_out.length = 10 ∧
    List.Forall₂ (fun (row : String × List ℕ) (c : Col) =>
      ∃ vals : List ℤ, mapExcept cellToInt c.cells = .ok vals ∧
        row.2.length = 10 ∧ row.2.sum = vals.length ∧
        vals.length = c.cells.length ∧
        (∀ i : ℕ, i < 10 →
          row.2.getD i 0 = vals.countP (fun s => s == (i : ℤ) + 1)))
      pilos_example_out (q3Cols pilos_example) :=
  get_pilos_histogram_invariant pilos_example pilos_example_out (by decide)
    (by decide)

end Core

end ReportAnalytics
